import Mathlib

/-!
Verification of the WAL orchestrator (kuentra-official/WAL, `wal.go`).

The WAL orchestrator (`Open`, `Write`, `WriteAll`, `PendingWrites`,
`ClearPendingWrites`, `rotateActiveSegment`, `OpenNewActiveSegment`, the
multi-segment `Reader`) is translated from `src/wal.go`.  The segment layer
(`segment.go`: `openSegmentFile`, `segment.Write`, `segment.writeAll`,
`segment.Sync`, `segmentReader`) is not part of the provided sources, so those
parts are modelled from the specification (spec.md §3, §4.1, §4.3, §4.5), as
marked on each definition.

Machine integers: Go `uint32` values are modelled as `Nat` with explicit
`% 2^32` where the code can overflow (segment ids on rotation, the
`bytesWrite` counter); Go `int64` values (`SegmentSize`, `pendingSize`) are
modelled as `Int`.  Disk I/O is modelled by an event trace (`Ev`): syncing a
segment, appending bytes to a segment, opening a new segment file.  Goroutine
interleavings are out of scope: every operation is the critical section it
executes under the WAL's write lock.
-/

namespace KuentraWal

/-- Modelled from the spec (§3): blocks are fixed 32 KiB. -/
def blockSize : Nat := 32768

/-- Modelled from the spec (§3): chunk header is 7 bytes
(4 CRC + 2 length + 1 type). -/
def chunkHeaderSize : Nat := 7

/-- Modulus of Go's `uint32` (`SegSerialID`, `BlockNumber`, `bytesWrite`):
`2^32`. -/
def uint32Mod : Nat := 4294967296

/-- `ChunkPosition` from the source: `SegmentId` and `BlockNumber` are
`uint32`, `ChunkOffset` is a (non-negative) `int64`, `ChunkSize` a `uint32`;
all modelled as `Nat`. -/
structure ChunkPosition where
  SegmentId : Nat
  BlockNumber : Nat
  ChunkOffset : Nat
  ChunkSize : Nat
deriving DecidableEq, Repr

/-- Modelled from the spec (§3): a segment is
`{id, current_block_number, current_block_size}`; the file handle is
implicit (I/O is traced by events at the WAL level). -/
structure Segment where
  id : Nat
  currentBlockNumber : Nat
  currentBlockSize : Nat
deriving DecidableEq, Repr

/-- Modelled from the spec (§4.3): `Size()` returns
`current_block_number * B + current_block_size`. -/
def Segment.Size (s : Segment) : Nat :=
  s.currentBlockNumber * blockSize + s.currentBlockSize

/-- Modelled from the spec (§4.1, §4.3): `segment.Write`.  If the remaining
space of the current block is `< H` the block is padded and a new block
begins; then the payload is framed as one FULL chunk if `H + n` fits in the
block's remainder, otherwise as FIRST (payload `B - bs - H`), zero or more
MIDDLE chunks (payload `B - H` each) and a final LAST chunk: `extra` is the
number of chunks after FIRST and `lastPayload` the LAST chunk's payload.
The position's `ChunkSize` is the footprint from the first header to the
last payload byte: `numChunks * H + n`. -/
def Segment.Write (s : Segment) (n : Nat) : ChunkPosition × Segment :=
  let pad := blockSize < s.currentBlockSize + chunkHeaderSize
  let bn := if pad then s.currentBlockNumber + 1 else s.currentBlockNumber
  let bs := if pad then 0 else s.currentBlockSize
  let fits := bs + chunkHeaderSize + n ≤ blockSize
  let per := blockSize - chunkHeaderSize
  let extra := (n - (blockSize - bs - chunkHeaderSize) + per - 1) / per
  let lastPayload := n - (blockSize - bs - chunkHeaderSize) - (extra - 1) * per
  (⟨s.id, bn, bs, (if fits then 1 else 1 + extra) * chunkHeaderSize + n⟩,
   ⟨s.id, if fits then bn else bn + extra,
    if fits then bs + chunkHeaderSize + n else chunkHeaderSize + lastPayload⟩)

/-- Modelled from the spec (§4.3): `segment.writeAll` frames each payload in
turn (the packing into one buffer does not change offsets) and returns one
position per payload, in order. -/
def Segment.writeAll (s : Segment) : List Nat → List ChunkPosition × Segment
  | [] => ([], s)
  | n :: rest =>
      let out := s.Write n
      let tail := out.2.writeAll rest
      (out.1 :: tail.1, tail.2)

/-- `Options` from the source (`DirPath` carries no information the model
uses; `SegmentSize` is `int64`, `BlockCache` and `BytesPerSync` are
`uint32`). -/
structure Options where
  SegmentSize : Int
  BlockCache : Nat
  DiskFileExtension : List Char
  DiskFlushSync : Bool
  BytesPerSync : Nat
deriving DecidableEq, Repr

/-- The `WAL` struct from the source.  `olderSegments` (a Go map keyed by
segment id) is a list with map insertion semantics (`olderInsert`);
`pendingWrites` keeps each staged payload's length (framing depends only on
lengths); locks and the block cache carry no state the claims touch. -/
structure WAL where
  activeSegment : Segment
  olderSegments : List Segment
  options : Options
  bytesWrite : Nat
  pendingWrites : List Nat
  pendingSize : Int
deriving DecidableEq, Repr

/-- Disk I/O events emitted by WAL operations, in program order. -/
inductive Ev where
  | sync (segId : Nat)
  | append (segId : Nat) (bytes : Nat)
  | openSeg (segId : Nat)
deriving DecidableEq, Repr

/-- The two sentinel errors of `wal.go` (`ErrDataSizeTooLarge`,
`ErrPendingSizeTooLarge`). -/
inductive WalErr where
  | dataSizeTooLarge
  | pendingSizeTooLarge
deriving DecidableEq, Repr

deriving instance DecidableEq for Except

/-- Result of a WAL operation: returned value or error, the state after, and
the trace of disk events. -/
structure WOut (α : Type) where
  res : Except WalErr α
  wal : WAL
  evs : List Ev
deriving DecidableEq

/-- Go map assignment `older[s.id] = s`: replace any entry with the same id,
otherwise add. -/
def olderInsert (l : List Segment) (s : Segment) : List Segment :=
  s :: l.filter (fun t => t.id ≠ s.id)

/-- `maxDataWriteSize` from the source:
`chunkHeaderSize + size + (size/blockSize + 1) * chunkHeaderSize` (the
argument is a payload length, hence non-negative). -/
def maxDataWriteSize (n : Nat) : Nat :=
  chunkHeaderSize + n + (n / blockSize + 1) * chunkHeaderSize

/-- `wal.isFull` from the source:
`activeSegment.Size() + maxDataWriteSize(delta) > SegmentSize`. -/
def WAL.isFull (w : WAL) (delta : Nat) : Bool :=
  decide (w.options.SegmentSize <
    (w.activeSegment.Size : Int) + (maxDataWriteSize delta : Int))

/-- `wal.rotateActiveSegment` from the source: sync the active segment, reset
`bytesWrite`, open a fresh segment with id `active.id + 1` (`uint32`
addition), move the old active into the older map, install the new one. -/
def WAL.rotateActiveSegment (w : WAL) : WAL × List Ev :=
  let newId := (w.activeSegment.id + 1) % uint32Mod
  ({ w with bytesWrite := 0,
            olderSegments := olderInsert w.olderSegments w.activeSegment,
            activeSegment := ⟨newId, 0, 0⟩ },
   [Ev.sync w.activeSegment.id, Ev.openSeg newId])

/-- `wal.OpenNewActiveSegment` from the source: sync the active segment, open
a fresh segment with id `active.id + 1`, move the old active into the older
map, install the new one.  Note: unlike `rotateActiveSegment`, the source
does NOT touch `bytesWrite` here. -/
def WAL.OpenNewActiveSegment (w : WAL) : WAL × List Ev :=
  let newId := (w.activeSegment.id + 1) % uint32Mod
  ({ w with olderSegments := olderInsert w.olderSegments w.activeSegment,
            activeSegment := ⟨newId, 0, 0⟩ },
   [Ev.sync w.activeSegment.id, Ev.openSeg newId])

/-- `wal.ClearPendingWrites` from the source: `pendingSize = 0`,
`pendingWrites = pendingWrites[:0]`. -/
def WAL.ClearPendingWrites (w : WAL) : WAL :=
  { w with pendingSize := 0, pendingWrites := [] }

/-- `wal.PendingWrites` from the source: stage the payload and add
`maxDataWriteSize(len(data))` to `pendingSize`. -/
def WAL.PendingWrites (w : WAL) (n : Nat) : WAL :=
  { w with pendingSize := w.pendingSize + (maxDataWriteSize n : Int),
           pendingWrites := w.pendingWrites ++ [n] }

/-- `wal.WriteAll` from the source: empty staging returns an empty list
before taking the main lock; under the lock the staging list is cleared on
every exit (the deferred `ClearPendingWrites`); oversized batches are
rejected; the active segment is rotated when the batch does not fit; the
batch is written with `segment.writeAll`.  No sync is issued. -/
def WAL.WriteAll (w : WAL) : WOut (List ChunkPosition) :=
  if w.pendingWrites = [] then ⟨.ok [], w, []⟩
  else if w.options.SegmentSize < w.pendingSize then
    ⟨.error .pendingSizeTooLarge, w.ClearPendingWrites, []⟩
  else
    let rot := if w.options.SegmentSize < (w.activeSegment.Size : Int) + w.pendingSize
               then w.rotateActiveSegment else (w, [])
    let out := rot.1.activeSegment.writeAll rot.1.pendingWrites
    ⟨.ok out.1,
     ({ rot.1 with activeSegment := out.2 }).ClearPendingWrites,
     rot.2 ++ [Ev.append out.2.id (out.2.Size - rot.1.activeSegment.Size)]⟩

/-- `wal.Write` from the source: reject when
`int64(len(data)) + chunkHeaderSize > SegmentSize`; rotate when `isFull`;
write to the active segment; `bytesWrite += position.ChunkSize` (`uint32`
wrap-around); sync when `DiskFlushSync`, or when `BytesPerSync > 0` and
`bytesWrite >= BytesPerSync`; on sync reset `bytesWrite`. -/
def WAL.Write (w : WAL) (n : Nat) : WOut ChunkPosition :=
  if w.options.SegmentSize < (n : Int) + (chunkHeaderSize : Int) then
    ⟨.error .dataSizeTooLarge, w, []⟩
  else
    let rot := if w.isFull n then w.rotateActiveSegment else (w, [])
    let out := rot.1.activeSegment.Write n
    let bw := (rot.1.bytesWrite + out.1.ChunkSize) % uint32Mod
    let needSync := w.options.DiskFlushSync ||
      (decide (0 < w.options.BytesPerSync) && decide (w.options.BytesPerSync ≤ bw))
    ⟨.ok out.1,
     { rot.1 with activeSegment := out.2, bytesWrite := if needSync then 0 else bw },
     rot.2 ++ Ev.append out.2.id out.1.ChunkSize ::
       (if needSync then [Ev.sync out.2.id] else [])⟩

/-- `true` when some `sync` event occurs strictly after the (first) `append`
event of a trace: "the segment was synced after the write". -/
def syncAfterAppend (evs : List Ev) : Bool :=
  ((evs.dropWhile (fun e => match e with | .append _ _ => false | _ => true)).drop 1).any
    (fun e => match e with | .sync _ => true | _ => false)

/-- A directory entry as returned by `os.ReadDir`: a name and whether the
entry is a sub-directory (`Open` skips directories). -/
structure DirEntry where
  name : List Char
  isDir : Bool
deriving DecidableEq, Repr

def isDigitChar (c : Char) : Bool := '0' ≤ c && c ≤ '9'

def digitVal (c : Char) : Nat := c.toNat - '0'.toNat

/-- Space characters Go's `fmt` scanner skips within a single line. -/
def isSpaceChar (c : Char) : Bool := c = ' ' || c = '\t'

def dropSpaces (s : List Char) : List Char := s.dropWhile isSpaceChar

/-- Longest leading digit run: accumulated value, number of digits
consumed, rest of the input. -/
def scanDigits : List Char → Nat → Nat → Nat × Nat × List Char
  | [], acc, cnt => (acc, cnt, [])
  | c :: cs, acc, cnt =>
    if isDigitChar c then scanDigits cs (acc * 10 + digitVal c) (cnt + 1)
    else (acc, cnt, c :: cs)

/-- Literal part of a Go scan format: a space in the format consumes any
run of spaces, any other character must match the input exactly; input left
over after the whole format is not an error. -/
def matchFormatChars : List Char → List Char → Option (List Char)
  | [], input => some input
  | c :: fs, input =>
    if isSpaceChar c then matchFormatChars fs (dropSpaces input)
    else match input with
      | [] => none
      | d :: ds => if d = c then matchFormatChars fs ds else none

/-- Modelled from the Go standard library: `fmt.Sscanf(name, "%d"+ext, &id)`
as used by `Open`.  The `%d` verb skips leading spaces and reads an
optionally signed decimal integer (at least one digit); then the format's
literal characters (the extension) must match; characters of `name` beyond
the format are ignored.  (Overflow of Go's 64-bit `int` is not modelled.)
Returns the parsed id, or `none` when `Sscanf` errors and `Open` skips the
entry. -/
def parseSegmentName (ext name : List Char) : Option Int :=
  let s1 := dropSpaces name
  let signed : Bool × List Char :=
    match s1 with
    | '-' :: rest => (true, rest)
    | '+' :: rest => (false, rest)
    | _ => (false, s1)
  let scanned := scanDigits signed.2 0 0
  if scanned.2.1 = 0 then none
  else match matchFormatChars ext scanned.2.2 with
    | some _ => some (if signed.1 then -(scanned.1 : Int) else (scanned.1 : Int))
    | none => none

/-- Go conversion `uint32(x)` of an `int64` value: the low 32 bits of the
two's-complement representation. -/
def uint32OfInt (x : Int) : Nat := (x % (uint32Mod : Int)).toNat

/-- `strings.HasPrefix(ext, ".")`. -/
def startsWithDot : List Char → Bool
  | '.' :: _ => true
  | _ => false

/-- Modelled from the spec (§4.3): `openSegmentFile` opens or creates the
file of segment `id` and derives the block cursor from the file length
(`block_number = len / B`, `block_size = len mod B`); `fsize` gives each
id's on-disk file length at open time (0 for files being created). -/
def openSegmentFile (fsize : Nat → Nat) (id : Nat) : Segment :=
  ⟨id, fsize id / blockSize, fsize id % blockSize⟩

/-- The ids `Open` collects from the directory listing: non-directory
entries whose name `fmt.Sscanf` accepts with format `"%d" + ext`. -/
def parsedIds (opts : Options) (entries : List DirEntry) : List Int :=
  entries.filterMap
    (fun e => if e.isDir then none
              else parseSegmentName opts.DiskFileExtension e.name)

/-- The source's open loop over the sorted segment files: every segment but
the last is put in the older map (index `< len-1`), the last becomes the
active segment (`none` only for an empty list, which the caller rules
out). -/
def assignSegs : List Segment → List Segment → List Segment × Option Segment
  | older, [] => (older, none)
  | older, [s] => (older, some s)
  | older, s :: s2 :: rest => assignSegs (olderInsert older s) (s2 :: rest)

/-- `Open` from the source: validate the options (extension must start with
'.', `BlockCache` must not exceed `uint32(SegmentSize)`), collect ids via
`Sscanf`, then either create a fresh segment with id 1 (no ids parsed) or
open all parsed ids in ascending order, the last becoming active (each id
converted to `uint32` when its segment is opened).  Directory creation and
the block cache hold no state the claims touch; I/O errors are not
modelled, so `none` is exactly a validation failure. -/
def Open (opts : Options) (fsize : Nat → Nat) (entries : List DirEntry) : Option WAL :=
  if ¬ startsWithDot opts.DiskFileExtension then none
  else if uint32OfInt opts.SegmentSize < opts.BlockCache then none
  else
    let segmentIDs := parsedIds opts entries
    if segmentIDs = [] then
      some ⟨openSegmentFile fsize 1, [], opts, 0, [], 0⟩
    else
      let sorted := segmentIDs.insertionSort (· ≤ ·)
      let segs := sorted.map (fun i => openSegmentFile fsize (uint32OfInt i))
      let asg := assignSegs [] segs
      some ⟨asg.2.getD (openSegmentFile fsize 1), asg.1, opts, 0, [], 0⟩

/-- The name filter stated by C5: `^\d+{ext}$` — one or more digits
followed exactly by the extension, nothing else. -/
def nameMatchesIdExt (ext name : List Char) : Bool :=
  let ds := name.takeWhile isDigitChar
  decide (ds ≠ []) && decide (name.drop ds.length = ext)

/-- Numeric value of a name's leading digit run. -/
def digitsValue (name : List Char) : Nat :=
  (name.takeWhile isDigitChar).foldl (fun a c => a * 10 + digitVal c) 0

/-- C5's description of `Open`, following the claim's words: treat as
segments exactly the non-directory entries whose name matches
`^\d+{ext}$`; sort the parsed ids ascending; open them all, the highest id
becoming the active segment, all others going to the older map; with no
matching name, create a fresh segment with id 1. -/
def OpenSpecRegex (opts : Options) (fsize : Nat → Nat) (entries : List DirEntry) :
    Option WAL :=
  if ¬ startsWithDot opts.DiskFileExtension then none
  else if uint32OfInt opts.SegmentSize < opts.BlockCache then none
  else
    let ids : List Int := entries.filterMap
      (fun e => if e.isDir then none
                else if nameMatchesIdExt opts.DiskFileExtension e.name
                then some (digitsValue e.name : Int) else none)
    if ids = [] then some ⟨openSegmentFile fsize 1, [], opts, 0, [], 0⟩
    else
      let sorted := ids.insertionSort (· ≤ ·)
      let segs := sorted.map (fun i => openSegmentFile fsize (uint32OfInt i))
      some ⟨(segs.getLast?).getD (openSegmentFile fsize 1),
            segs.dropLast.foldl olderInsert [], opts, 0, [], 0⟩

/-- C5 amended description of `Open`: as the claim, but the name filter is
`fmt.Sscanf` acceptance of `"%d"+ext` (optional leading spaces and sign, at
least one decimal digit, then the extension, trailing characters ignored);
the ids are the parsed integers, sorted ascending as parsed, truncated to
`uint32` when their segments are opened. -/
def OpenSpecSscanf (opts : Options) (fsize : Nat → Nat) (entries : List DirEntry) :
    Option WAL :=
  if ¬ startsWithDot opts.DiskFileExtension then none
  else if uint32OfInt opts.SegmentSize < opts.BlockCache then none
  else
    let ids := parsedIds opts entries
    if ids = [] then some ⟨openSegmentFile fsize 1, [], opts, 0, [], 0⟩
    else
      let sorted := ids.insertionSort (· ≤ ·)
      let segs := sorted.map (fun i => openSegmentFile fsize (uint32OfInt i))
      some ⟨(segs.getLast?).getD (openSegmentFile fsize 1),
            segs.dropLast.foldl olderInsert [], opts, 0, [], 0⟩

/-- Modelled from the spec (§4.3, §4.5): a segment reader is a cursor over
one segment's chunks.  `pending` lists, in order, the
`(block_number, chunk_offset)` cursor values of the chunks not yet read;
`endPos` is the cursor after the last chunk ("past the LAST chunk's block
and offset").  Payload bytes are irrelevant to the claims and omitted. -/
structure SegmentReaderM where
  segId : Nat
  pending : List (Nat × Nat)
  endPos : Nat × Nat
deriving DecidableEq, Repr

/-- The reader's current `blockNumber`/`chunkOffset` fields: the next
unread chunk's position, or `endPos` when exhausted. -/
def SegmentReaderM.cursor (sr : SegmentReaderM) : Nat × Nat :=
  sr.pending.headD sr.endPos

/-- The multi-segment `Reader` struct from the source: segment readers (in
ascending id order, as `NewReaderWithMax` sorts them) and the index of the
current one. -/
structure ReaderM where
  segmentReaders : List SegmentReaderM
  currentReader : Nat
deriving DecidableEq, Repr

/-- `Reader.Next` from the source: `EOF` (`none`) past the last reader;
otherwise yield the current segment reader's next chunk position, or
advance `currentReader` and retry on that reader's EOF.  The returned
reader carries the mutated state (the Go receiver is a pointer, and its
`currentReader` increments survive an EOF return).  The fuel only bounds
the `currentReader++` recursion; `length + 1` always suffices. -/
def readerNextAux : Nat → ReaderM → Option (Nat × Nat) × ReaderM
  | 0, r => (none, r)
  | fuel + 1, r =>
    if h : r.currentReader < r.segmentReaders.length then
      let sr := r.segmentReaders.get ⟨r.currentReader, h⟩
      match sr.pending with
      | [] => readerNextAux fuel { r with currentReader := r.currentReader + 1 }
      | p :: rest =>
          (some p,
           { r with segmentReaders :=
               r.segmentReaders.set r.currentReader { sr with pending := rest } })
    else (none, r)

def ReaderM.Next (r : ReaderM) : Option (Nat × Nat) × ReaderM :=
  readerNextAux (r.segmentReaders.length + 1) r

/-- `Reader.SkipCurrentSegment` from the source: `currentReader++`,
unconditionally. -/
def ReaderM.SkipCurrentSegment (r : ReaderM) : ReaderM :=
  { r with currentReader := r.currentReader + 1 }

/-- `Reader.CurrentSegmentId` from the source.  The Go code indexes
`segmentReaders[currentReader]` with no bound check; the model makes the
needed bound an explicit hypothesis, and the loop below panics exactly
where Go would evaluate the out-of-range index. -/
def ReaderM.CurrentSegmentId (r : ReaderM)
    (h : r.currentReader < r.segmentReaders.length) : Nat :=
  (r.segmentReaders.get ⟨r.currentReader, h⟩).segId

/-- `Reader.CurrentChunkPosition` from the source: the current reader's
segment id, `blockNumber` and `chunkOffset` (the `ChunkSize` field is left
at its zero value). -/
def ReaderM.CurrentChunkPosition (r : ReaderM)
    (h : r.currentReader < r.segmentReaders.length) : ChunkPosition :=
  ⟨(r.segmentReaders.get ⟨r.currentReader, h⟩).segId,
   ((r.segmentReaders.get ⟨r.currentReader, h⟩).cursor).1,
   ((r.segmentReaders.get ⟨r.currentReader, h⟩).cursor).2, 0⟩

/-- Outcome of the `NewReaderWithStart` advance loop: a Go panic (index out
of range), or the positioned reader.  `outOfFuel` never occurs for the fuel
`ReaderM.fuelFor` supplies. -/
inductive StartResult where
  | outOfFuel
  | panicked
  | ok (r : ReaderM)
deriving DecidableEq, Repr

/-- The advance loop of `NewReaderWithStart` from the source (lines
198-217, after `NewReader()` and the nil check): skip while
`CurrentSegmentId() < startPos.SegmentId` — indexing out of range (a Go
panic) once every reader has been skipped — otherwise stop when
`currentPos.BlockNumber >= startPos.BlockNumber && currentPos.ChunkOffset
>= startPos.ChunkOffset`, else `Next()`, stopping at EOF.  Non-EOF errors
cannot occur in the model (segment readers hold their chunk lists). -/
def newReaderWithStartAux : Nat → ChunkPosition → ReaderM → StartResult
  | 0, _, _ => .outOfFuel
  | fuel + 1, startPos, r =>
    if h : r.currentReader < r.segmentReaders.length then
      if r.CurrentSegmentId h < startPos.SegmentId then
        newReaderWithStartAux fuel startPos r.SkipCurrentSegment
      else
        if startPos.BlockNumber ≤ (r.CurrentChunkPosition h).BlockNumber ∧
           startPos.ChunkOffset ≤ (r.CurrentChunkPosition h).ChunkOffset then .ok r
        else
          match r.Next with
          | (none, r1) => .ok r1
          | (some _, r1) => newReaderWithStartAux fuel startPos r1
    else .panicked

/-- Fuel that always suffices for the advance loop from `r`: one unit per
remaining reader and per unread chunk, plus one. -/
def ReaderM.fuelFor (r : ReaderM) : Nat :=
  ((r.segmentReaders.drop r.currentReader).map
    (fun sr => sr.pending.length + 1)).sum + 1

/-- `NewReaderWithStart` from the source, applied to an already-built
reader (`wal.NewReader()` yields `currentReader = 0` and ids sorted
ascending; `startPos` is non-nil). -/
def ReaderM.NewReaderWithStart (r : ReaderM) (startPos : ChunkPosition) :
    StartResult :=
  newReaderWithStartAux r.fuelFor startPos r

/-- C6's first phase, as the claim words it: skip whole segment readers
while the current segment id is less than the start position's segment
id. -/
def skipToSegmentAux : Nat → ChunkPosition → ReaderM → ReaderM
  | 0, _, r => r
  | fuel + 1, startPos, r =>
    if h : r.currentReader < r.segmentReaders.length then
      if r.CurrentSegmentId h < startPos.SegmentId then
        skipToSegmentAux fuel startPos r.SkipCurrentSegment
      else r
    else r

def ReaderM.skipToSegment (r : ReaderM) (startPos : ChunkPosition) : ReaderM :=
  skipToSegmentAux r.fuelFor startPos r

/-- C6's second phase, as the claim words it: repeatedly call `Next()`
exactly until the cursor satisfies `block_number ≥ startPos.block_number ∧
chunk_offset ≥ startPos.chunk_offset`, or EOF is reached. -/
def advanceToPosAux : Nat → ChunkPosition → ReaderM → ReaderM
  | 0, _, r => r
  | fuel + 1, startPos, r =>
    if h : r.currentReader < r.segmentReaders.length then
      if startPos.BlockNumber ≤ (r.CurrentChunkPosition h).BlockNumber ∧
         startPos.ChunkOffset ≤ (r.CurrentChunkPosition h).ChunkOffset then r
      else
        match r.Next with
        | (none, r1) => r1
        | (some _, r1) => advanceToPosAux fuel startPos r1
    else r

def ReaderM.advanceToPos (r : ReaderM) (startPos : ChunkPosition) : ReaderM :=
  advanceToPosAux r.fuelFor startPos r

/-- The segment-id invariant of C4: every segment in the older map has id
strictly below the active segment's id.  That exactly one active segment
exists is structural in the model (`activeSegment` is a single field, as
in the source struct). -/
def walSegInv (w : WAL) : Prop :=
  ∀ s ∈ w.olderSegments, s.id < w.activeSegment.id

/-- WAL states reachable from a successful `Open` by the mutating
operations named in C4 (`Write`, `WriteAll`, `OpenNewActiveSegment`),
plus `PendingWrites` so that `WriteAll` can see nonempty batches. -/
inductive Reachable : WAL → Prop where
  | openWal : ∀ opts fsize entries w,
      Open opts fsize entries = some w → Reachable w
  | write : ∀ w n, Reachable w → Reachable (w.Write n).wal
  | writeAll : ∀ w, Reachable w → Reachable (w.WriteAll).wal
  | pending : ∀ w n, Reachable w → Reachable (w.PendingWrites n)
  | newActive : ∀ w, Reachable w → Reachable (w.OpenNewActiveSegment).1

/-- Reachability restricted as the amended C4 requires: the ids `Open`
parses are pairwise distinct and lie in `[0, 2^32)` (so the `uint32`
conversion at `openSegmentFile` neither collides nor reorders them), and
every mutating step starts from an active id below `2^32 - 1`, so the id
increment of a rotation cannot wrap around. -/
inductive ReachableSafe : WAL → Prop where
  | openWal : ∀ opts fsize entries w,
      Open opts fsize entries = some w →
      (parsedIds opts entries).Pairwise (· ≠ ·) →
      (∀ i ∈ parsedIds opts entries, 0 ≤ i ∧ i < (uint32Mod : Int)) →
      ReachableSafe w
  | write : ∀ w n, ReachableSafe w → w.activeSegment.id + 1 < uint32Mod →
      ReachableSafe (w.Write n).wal
  | writeAll : ∀ w, ReachableSafe w → w.activeSegment.id + 1 < uint32Mod →
      ReachableSafe (w.WriteAll).wal
  | pending : ∀ w n, ReachableSafe w → ReachableSafe (w.PendingWrites n)
  | newActive : ∀ w, ReachableSafe w → w.activeSegment.id + 1 < uint32Mod →
      ReachableSafe (w.OpenNewActiveSegment).1

/-- C1: if `chunkHeaderSize (7) + len(payload) > SegmentSize` then `Write`
returns the `DataSizeTooLarge` error, the WAL state is unchanged (no
rotation, `bytesWrite` untouched, no segment modified), and no disk event
(in particular no append to any segment) occurs. -/
theorem write_data_too_large (w : WAL) (n : Nat)
    (h : w.options.SegmentSize < (chunkHeaderSize : Int) + (n : Int)) :
    (w.Write n).res = .error .dataSizeTooLarge ∧
    (w.Write n).wal = w ∧ (w.Write n).evs = [] := by
  have h' : w.options.SegmentSize < (n : Int) + (chunkHeaderSize : Int) := by
    have := h; omega
  refine ⟨?_, ?_, ?_⟩ <;> simp [WAL.Write, if_pos h']

/-- C1 witness: a concrete WAL with `SegmentSize = 10` and a payload of
length 5 (7 + 5 > 10): the write fails and changes nothing. -/
theorem write_data_too_large_witness :
    (let w : WAL := ⟨⟨1, 0, 0⟩, [], ⟨10, 0, ['.', 's', 'e', 'g'], false, 0⟩, 3, [], 0⟩
     (w.Write 5).res = .error .dataSizeTooLarge ∧
     (w.Write 5).wal = w ∧ (w.Write 5).evs = []) :=
  write_data_too_large _ 5 (by decide)

/-- C2: `WriteAll` on an empty staging list returns an empty position list
and no error (the main lock is not taken, nothing is cleared); with a
nonempty staging list, if `pendingSize > SegmentSize` it returns
`PendingSizeTooLarge`; and on every path that takes the main lock (i.e. the
staging list was nonempty), the deferred `ClearPendingWrites` leaves
`pendingWrites = []` and `pendingSize = 0`, success or failure. -/
theorem writeAll_drains (w : WAL) :
    (w.pendingWrites = [] → (w.WriteAll).res = .ok [] ∧ (w.WriteAll).wal = w) ∧
    (w.pendingWrites ≠ [] → w.options.SegmentSize < w.pendingSize →
      (w.WriteAll).res = .error .pendingSizeTooLarge) ∧
    (w.pendingWrites ≠ [] →
      (w.WriteAll).wal.pendingWrites = [] ∧ (w.WriteAll).wal.pendingSize = 0) := by
  by_cases he : w.pendingWrites = []
  · refine ⟨fun _ => ?_, fun hne _ => absurd he hne, fun hne => absurd he hne⟩
    simp [WAL.WriteAll, he]
  · by_cases hsz : w.options.SegmentSize < w.pendingSize
    · refine ⟨fun h => absurd h he, fun _ _ => ?_, fun _ => ?_⟩ <;>
        simp [WAL.WriteAll, he, hsz, WAL.ClearPendingWrites]
    · refine ⟨fun h => absurd h he, fun _ h => absurd h hsz, fun _ => ?_⟩
      simp [WAL.WriteAll, he, hsz, WAL.ClearPendingWrites]

/-- C2 witness: an empty staging list returns `ok []`; a staging list of two
records with `pendingSize = 44 > SegmentSize = 10` returns
`PendingSizeTooLarge` and is drained. -/
theorem writeAll_drains_witness :
    (let we : WAL := ⟨⟨1, 0, 0⟩, [], ⟨100, 0, ['.', 's', 'e', 'g'], false, 0⟩, 0, [], 0⟩
     (we.WriteAll).res = .ok []) ∧
    (let wb : WAL := ⟨⟨1, 0, 0⟩, [], ⟨10, 0, ['.', 's', 'e', 'g'], false, 0⟩, 0, [2, 3], 44⟩
     (wb.WriteAll).res = .error .pendingSizeTooLarge ∧
     (wb.WriteAll).wal.pendingWrites = [] ∧ (wb.WriteAll).wal.pendingSize = 0) := by
  refine ⟨((writeAll_drains _).1 rfl).1, ?_, ?_⟩
  · exact (writeAll_drains _).2.1 (by decide) (by decide)
  · exact (writeAll_drains _).2.2 (by decide)

/-- C9: a successful `WriteAll` (nonempty batch that fits in a segment)
issues no sync after the append, whatever `DiskFlushSync` and `BytesPerSync`
are, and does not change `bytesWrite` after the write: its final value is
the value it had when the append was issued (0 if the call rotated, the
incoming value otherwise). -/
theorem writeAll_no_sync (w : WAL)
    (hne : w.pendingWrites ≠ [])
    (hsz : w.pendingSize ≤ w.options.SegmentSize) :
    (∃ ps, (w.WriteAll).res = .ok ps) ∧
    syncAfterAppend (w.WriteAll).evs = false ∧
    (w.WriteAll).wal.bytesWrite =
      (if w.options.SegmentSize < (w.activeSegment.Size : Int) + w.pendingSize
       then 0 else w.bytesWrite) := by
  have hsz' : ¬ w.options.SegmentSize < w.pendingSize := not_lt.mpr hsz
  by_cases hrot : w.options.SegmentSize < (w.activeSegment.Size : Int) + w.pendingSize
  · refine ⟨?_, ?_, ?_⟩
    · simp only [WAL.WriteAll, if_neg hne, if_neg hsz', if_pos hrot]
      exact ⟨_, rfl⟩
    · simp [WAL.WriteAll, hne, hsz', hrot, WAL.ClearPendingWrites,
        WAL.rotateActiveSegment, syncAfterAppend]
    · simp [WAL.WriteAll, hne, hsz', hrot, WAL.ClearPendingWrites,
        WAL.rotateActiveSegment, syncAfterAppend]
  · refine ⟨?_, ?_, ?_⟩
    · simp only [WAL.WriteAll, if_neg hne, if_neg hsz', if_neg hrot]
      exact ⟨_, rfl⟩
    · simp [WAL.WriteAll, hne, hsz', hrot, WAL.ClearPendingWrites,
        WAL.rotateActiveSegment, syncAfterAppend]
    · simp [WAL.WriteAll, hne, hsz', hrot, WAL.ClearPendingWrites,
        WAL.rotateActiveSegment, syncAfterAppend]

/-- C9 witness: a WAL with one staged record and `DiskFlushSync = true`
still does not sync after the batch write. -/
theorem writeAll_no_sync_witness :
    (let w : WAL := ⟨⟨1, 0, 0⟩, [], ⟨1000, 0, ['.', 's', 'e', 'g'], true, 0⟩, 9, [4], 21⟩
     (∃ ps, (w.WriteAll).res = .ok ps) ∧
     syncAfterAppend (w.WriteAll).evs = false ∧
     (w.WriteAll).wal.bytesWrite =
       (if w.options.SegmentSize < (w.activeSegment.Size : Int) + w.pendingSize
        then 0 else w.bytesWrite)) :=
  writeAll_no_sync _ (by decide) (by decide)

/-- C3 counterexample: the claim says every successful `Write` increments
`bytes_since_sync` by the returned `chunk_size`.  When the write rotates
(`isFull`), `rotateActiveSegment` zeroes the counter first: with
`bytesWrite = 5` and a returned `chunk_size` of 8, the counter ends at 8,
not 5 + 8 = 13. -/
theorem write_bytes_counter_counterexample :
    (let w : WAL := ⟨⟨1, 0, 95⟩, [], ⟨100, 0, ['.', 's', 'e', 'g'], false, 0⟩, 5, [], 0⟩
     ∃ pos, (w.Write 1).res = .ok pos ∧
       (w.Write 1).wal.bytesWrite ≠ w.bytesWrite + pos.ChunkSize ∧
       (w.Write 1).wal.bytesWrite ≠ (w.bytesWrite + pos.ChunkSize) % uint32Mod) := by
  exact ⟨⟨2, 0, 0, 8⟩, by decide, by decide, by decide⟩

/-- C3 amended: for every successful `Write`, `bytes_since_sync` is set to
`b0 + chunk_size (mod 2^32)` where `b0` is the counter's value after any
rotation performed by the same call (0 if the call rotated, the incoming
value otherwise); the active segment is then synced if and only if
`DiskFlushSync` is set, or `BytesPerSync > 0` and the incremented counter
is `≥ BytesPerSync`; and whenever that sync happens the counter is reset to
0. -/
theorem write_sync_policy (w : WAL) (n : Nat)
    (h : (n : Int) + (chunkHeaderSize : Int) ≤ w.options.SegmentSize) :
    ∃ pos : ChunkPosition,
      (w.Write n).res = .ok pos ∧
      syncAfterAppend (w.Write n).evs =
        (w.options.DiskFlushSync ||
          (decide (0 < w.options.BytesPerSync) &&
           decide (w.options.BytesPerSync ≤
             ((if w.isFull n then 0 else w.bytesWrite) + pos.ChunkSize) % uint32Mod))) ∧
      (w.Write n).wal.bytesWrite =
        (if (w.options.DiskFlushSync ||
          (decide (0 < w.options.BytesPerSync) &&
           decide (w.options.BytesPerSync ≤
             ((if w.isFull n then 0 else w.bytesWrite) + pos.ChunkSize) % uint32Mod)))
         then 0
         else ((if w.isFull n then 0 else w.bytesWrite) + pos.ChunkSize) % uint32Mod) := by
  have h' : ¬ w.options.SegmentSize < (n : Int) + (chunkHeaderSize : Int) := not_lt.mpr h
  by_cases hf : w.isFull n
  · refine ⟨((w.rotateActiveSegment).1.activeSegment.Write n).1, ?_, ?_, ?_⟩
    · simp only [WAL.Write, if_neg h', hf, if_true, WAL.rotateActiveSegment]
    · simp only [WAL.Write, if_neg h', hf, if_true, WAL.rotateActiveSegment]
      generalize (w.options.DiskFlushSync || _) = b
      cases b <;> simp [syncAfterAppend]
    · simp only [WAL.Write, if_neg h', hf, if_true, WAL.rotateActiveSegment]
  · refine ⟨(w.activeSegment.Write n).1, ?_, ?_, ?_⟩
    · simp only [WAL.Write, if_neg h', hf, if_false, Bool.false_eq_true]
    · simp only [WAL.Write, if_neg h', hf, if_false, Bool.false_eq_true]
      generalize (w.options.DiskFlushSync || _) = b
      cases b <;> simp [syncAfterAppend]
    · simp only [WAL.Write, if_neg h', hf, if_false, Bool.false_eq_true]

/-- C7 counterexample: the claim says `OpenNewActiveSegment` has the same
effect as the internal rotate step, including resetting `bytes_since_sync`
to 0.  In the source, `OpenNewActiveSegment` never touches `bytesWrite`
(only `rotateActiveSegment` zeroes it): starting from `bytesWrite = 5` the
two functions produce different states, and `OpenNewActiveSegment` leaves
the counter at 5. -/
theorem openNewActiveSegment_counterexample :
    (let w : WAL := ⟨⟨1, 0, 0⟩, [], ⟨1000, 0, ['.', 's', 'e', 'g'], false, 0⟩, 5, [], 0⟩
     (w.OpenNewActiveSegment).1.bytesWrite ≠ 0 ∧
     (w.OpenNewActiveSegment).1 ≠ (w.rotateActiveSegment).1) :=
  ⟨by decide, by decide⟩

/-- C7 amended: `OpenNewActiveSegment` performs the same rotation as the
internal rotate step — sync the current active segment, open a new segment
with id `active.id + 1`, move the old active into the older map, install the
new one, with identical disk events — except that it leaves
`bytes_since_sync` unchanged (the internal rotate resets it to 0). -/
theorem openNewActiveSegment_rotates (w : WAL) :
    (w.OpenNewActiveSegment).1 =
      { (w.rotateActiveSegment).1 with bytesWrite := w.bytesWrite } ∧
    (w.OpenNewActiveSegment).2 = (w.rotateActiveSegment).2 := by
  constructor <;> simp [WAL.OpenNewActiveSegment, WAL.rotateActiveSegment]

/-- C3 witness: `DiskFlushSync = false`, `BytesPerSync = 10`, counter at 3,
write of 5 bytes (chunk size 12): the incremented counter 15 reaches the
threshold, the segment is synced and the counter resets to 0. -/
theorem write_sync_policy_witness :
    (let w : WAL := ⟨⟨1, 0, 0⟩, [], ⟨1000, 0, ['.', 's', 'e', 'g'], false, 10⟩, 3, [], 0⟩
     ∃ pos : ChunkPosition,
      (w.Write 5).res = .ok pos ∧
      syncAfterAppend (w.Write 5).evs =
        (w.options.DiskFlushSync ||
          (decide (0 < w.options.BytesPerSync) &&
           decide (w.options.BytesPerSync ≤
             ((if w.isFull 5 then 0 else w.bytesWrite) + pos.ChunkSize) % uint32Mod))) ∧
      (w.Write 5).wal.bytesWrite =
        (if (w.options.DiskFlushSync ||
          (decide (0 < w.options.BytesPerSync) &&
           decide (w.options.BytesPerSync ≤
             ((if w.isFull 5 then 0 else w.bytesWrite) + pos.ChunkSize) % uint32Mod)))
         then 0
         else ((if w.isFull 5 then 0 else w.bytesWrite) + pos.ChunkSize) % uint32Mod)) :=
  write_sync_policy _ 5 (by decide)

/-- The source's open loop equals: fold the older-map insertions over all
but the last opened segment, and take the last as active. -/
theorem assignSegs_eq (l : List Segment) :
    ∀ acc, assignSegs acc l = (l.dropLast.foldl olderInsert acc, l.getLast?) := by
  induction l with
  | nil => intro acc; rfl
  | cons s t ih =>
    intro acc
    cases t with
    | nil => rfl
    | cons s2 r =>
      show assignSegs (olderInsert acc s) (s2 :: r) = _
      rw [ih (olderInsert acc s)]
      simp [List.getLast?_cons_cons]

/-- C5 counterexample: the claim says `Open` treats as segments exactly the
files whose name matches `^\d+{ext}$`.  With extension `.s` and the single
file `2.sx` (which the regex rejects), `fmt.Sscanf` still accepts the name
(`%d` parses `2`, the format `.s` matches, the trailing `x` is ignored):
the source opens it as segment 2, while the claim's description would find
no segment and create a fresh one with id 1. -/
theorem open_name_filter_counterexample :
    (let opts : Options := ⟨1000, 0, ['.', 's'], false, 0⟩
     let es : List DirEntry := [⟨['2', '.', 's', 'x'], false⟩]
     Open opts (fun _ => 0) es ≠ OpenSpecRegex opts (fun _ => 0) es ∧
     (Open opts (fun _ => 0) es).map (fun w => w.activeSegment.id) = some 2 ∧
     (OpenSpecRegex opts (fun _ => 0) es).map (fun w => w.activeSegment.id) = some 1) := by
  refine ⟨by decide, by decide, by decide⟩

/-- C5 amended: for every directory listing, `Open` treats as segments
exactly the non-directory entries whose name `fmt.Sscanf` accepts with
format `"%d"+ext` (optional leading spaces and sign, at least one decimal
digit, then the extension; trailing characters are ignored), sorts the
parsed ids ascending, makes the highest (last) id the active segment and
puts all others into the older-segments map (ids truncated to `uint32` when
opened); when no name is accepted it creates a fresh segment with id 1 as
the active segment and leaves the older map empty. -/
theorem open_matches_sscanf_description (opts : Options) (fsize : Nat → Nat)
    (entries : List DirEntry) :
    Open opts fsize entries = OpenSpecSscanf opts fsize entries := by
  unfold Open OpenSpecSscanf
  by_cases h1 : startsWithDot opts.DiskFileExtension
  · by_cases h2 : uint32OfInt opts.SegmentSize < opts.BlockCache
    · simp [h1, h2]
    · by_cases h3 : parsedIds opts entries = []
      · simp [h1, h2, h3]
      · simp only [h1, h2, h3, if_false, if_true, not_true, not_false_iff,
          Bool.not_eq_true, ite_false, ite_true]
        rw [assignSegs_eq]
  · simp [h1]

/-- C8 counterexample: the claim says validation succeeds whenever the
extension starts with '.' and `BlockCache ≤ SegmentSize`.  The source
compares `BlockCache > uint32(SegmentSize)`, truncating `SegmentSize`
(an `int64`) to 32 bits: with `SegmentSize = 2^32` and `BlockCache = 1`,
`uint32(SegmentSize) = 0`, so `Open` fails even though
`BlockCache ≤ SegmentSize`. -/
theorem open_validation_counterexample :
    (let opts : Options := ⟨4294967296, 1, ['.', 's', 'e', 'g'], false, 0⟩
     startsWithDot opts.DiskFileExtension = true ∧
     (opts.BlockCache : Int) ≤ opts.SegmentSize ∧
     Open opts (fun _ => 0) [] = none) := by
  refine ⟨by decide, by decide, by decide⟩

/-- C8 amended: `Open` fails if and only if the extension does not start
with '.' or `BlockCache > uint32(SegmentSize)` (the source truncates the
64-bit `SegmentSize` to 32 bits for this comparison); in particular, for
every `SegmentSize` in `[0, 2^32)`, validation succeeds exactly when the
extension is valid and `BlockCache ≤ SegmentSize`.  (In the model no I/O
can fail, so `Open = none` is exactly a validation failure; in the source
both checks precede every filesystem access.) -/
theorem open_validation_iff (opts : Options) (fsize : Nat → Nat)
    (entries : List DirEntry) :
    Open opts fsize entries = none ↔
      (startsWithDot opts.DiskFileExtension = false ∨
       uint32OfInt opts.SegmentSize < opts.BlockCache) := by
  unfold Open
  by_cases h1 : startsWithDot opts.DiskFileExtension
  · by_cases h2 : uint32OfInt opts.SegmentSize < opts.BlockCache
    · simp [h1, h2]
    · by_cases h3 : parsedIds opts entries = [] <;> simp [h1, h2, h3]
  · simp [h1]

/-- Membership after a Go map assignment. -/
theorem mem_olderInsert {l : List Segment} {s t : Segment}
    (h : t ∈ olderInsert l s) : t = s ∨ t ∈ l := by
  rcases List.mem_cons.mp h with h' | h'
  · exact Or.inl h'
  · exact Or.inr (List.mem_filter.mp h').1

/-- The segment-id invariant only depends on the older list and the active
id. -/
theorem walSegInv_of_eq {w w' : WAL} (hw : walSegInv w)
    (ho : w'.olderSegments = w.olderSegments)
    (ha : w'.activeSegment.id = w.activeSegment.id) : walSegInv w' := by
  intro t ht
  rw [ho] at ht
  rw [ha]
  exact hw t ht

/-- `segment.Write` never changes the segment's id. -/
theorem segWrite_id (s : Segment) (n : Nat) : ((s.Write n).2).id = s.id := rfl

/-- `segment.writeAll` never changes the segment's id. -/
theorem segWriteAll_id (s : Segment) (l : List Nat) :
    ((s.writeAll l).2).id = s.id := by
  induction l generalizing s with
  | nil => rfl
  | cons n rest ih =>
    simp only [Segment.writeAll]
    rw [ih]
    exact segWrite_id s n

/-- Rotation preserves the segment-id invariant when the id increment does
not wrap. -/
theorem walSegInv_rotate {w : WAL} (hw : walSegInv w)
    (hid : w.activeSegment.id + 1 < uint32Mod) :
    walSegInv (w.rotateActiveSegment).1 := by
  intro s hs
  simp only [WAL.rotateActiveSegment] at hs ⊢
  have hm : (w.activeSegment.id + 1) % uint32Mod = w.activeSegment.id + 1 :=
    Nat.mod_eq_of_lt hid
  rcases mem_olderInsert hs with h | h
  · subst h
    simp [hm]
  · have := hw s h
    simp only [hm]
    omega

/-- `OpenNewActiveSegment` preserves the segment-id invariant when the id
increment does not wrap. -/
theorem walSegInv_onas {w : WAL} (hw : walSegInv w)
    (hid : w.activeSegment.id + 1 < uint32Mod) :
    walSegInv (w.OpenNewActiveSegment).1 := by
  intro s hs
  simp only [WAL.OpenNewActiveSegment] at hs ⊢
  have hm : (w.activeSegment.id + 1) % uint32Mod = w.activeSegment.id + 1 :=
    Nat.mod_eq_of_lt hid
  rcases mem_olderInsert hs with h | h
  · subst h
    simp [hm]
  · have := hw s h
    simp only [hm]
    omega

/-- `Write` preserves the segment-id invariant when the id increment does
not wrap. -/
theorem walSegInv_write {w : WAL} {n : Nat} (hw : walSegInv w)
    (hid : w.activeSegment.id + 1 < uint32Mod) :
    walSegInv (w.Write n).wal := by
  unfold WAL.Write
  by_cases h' : w.options.SegmentSize < (n : Int) + (chunkHeaderSize : Int)
  · simpa [h'] using hw
  · simp only [if_neg h']
    by_cases hf : w.isFull n
    · simp only [hf, if_true]
      exact walSegInv_of_eq (walSegInv_rotate hw hid) rfl
        (segWrite_id (w.rotateActiveSegment).1.activeSegment n)
    · simp only [hf, if_false, Bool.false_eq_true]
      exact walSegInv_of_eq hw rfl (segWrite_id w.activeSegment n)

/-- `WriteAll` preserves the segment-id invariant when the id increment
does not wrap. -/
theorem walSegInv_writeAll {w : WAL} (hw : walSegInv w)
    (hid : w.activeSegment.id + 1 < uint32Mod) :
    walSegInv (w.WriteAll).wal := by
  unfold WAL.WriteAll
  by_cases he : w.pendingWrites = []
  · simpa [he] using hw
  · simp only [if_neg he]
    by_cases hsz : w.options.SegmentSize < w.pendingSize
    · simpa [hsz, WAL.ClearPendingWrites] using hw
    · simp only [if_neg hsz]
      by_cases hrot : w.options.SegmentSize < (w.activeSegment.Size : Int) + w.pendingSize
      · simp only [hrot, if_true]
        exact walSegInv_of_eq (walSegInv_rotate hw hid) rfl
          (segWriteAll_id (w.rotateActiveSegment).1.activeSegment _)
      · simp only [hrot, if_false]
        exact walSegInv_of_eq hw rfl (segWriteAll_id w.activeSegment _)

/-- Membership in a fold of Go map assignments. -/
theorem mem_foldl_olderInsert (l : List Segment) :
    ∀ acc t, t ∈ l.foldl olderInsert acc → t ∈ acc ∨ t ∈ l := by
  induction l with
  | nil =>
    intro acc t h
    exact Or.inl h
  | cons s r ih =>
    intro acc t h
    rcases ih (olderInsert acc s) t h with h' | h'
    · rcases mem_olderInsert h' with h'' | h''
      · exact Or.inr (h'' ▸ List.mem_cons_self s r)
      · exact Or.inl h''
    · exact Or.inr (List.mem_cons_of_mem s h')

/-- Go's `uint32` conversion preserves strict order on `[0, 2^32)`. -/
theorem uint32OfInt_lt {a b : Int} (ha : 0 ≤ a) (hab : a < b)
    (hb : b < (uint32Mod : Int)) : uint32OfInt a < uint32OfInt b := by
  unfold uint32OfInt uint32Mod at *
  omega

/-- After a successful `Open` whose parsed ids are pairwise distinct and fit
in `uint32`, the segment-id invariant holds: the last (largest) sorted id
becomes active and strictly dominates every id in the older map. -/
theorem walSegInv_open {opts : Options} {fsize : Nat → Nat}
    {entries : List DirEntry} {w : WAL}
    (hw : Open opts fsize entries = some w)
    (hnd : (parsedIds opts entries).Pairwise (· ≠ ·))
    (hrange : ∀ i ∈ parsedIds opts entries, 0 ≤ i ∧ i < (uint32Mod : Int)) :
    walSegInv w := by
  unfold Open at hw
  by_cases h1 : startsWithDot opts.DiskFileExtension
  swap
  · simp [h1] at hw
  by_cases h2 : uint32OfInt opts.SegmentSize < opts.BlockCache
  · simp [h1, h2] at hw
  by_cases h3 : parsedIds opts entries = []
  · simp only [h1, h2, h3, not_true, not_false_iff, if_false, if_true,
      ite_true, ite_false, Bool.not_eq_true, Option.some.injEq] at hw
    subst hw
    intro t ht
    simp at ht
  · simp only [h1, h2, h3, not_true, not_false_iff, if_false, if_true,
      ite_true, ite_false, Bool.not_eq_true, Option.some.injEq,
      assignSegs_eq] at hw
    subst hw
    intro t ht
    simp only at ht ⊢
    -- notation for the sorted id list and the opened segment list
    have hperm := List.perm_insertionSort (· ≤ ·) (parsedIds opts entries)
    have hsorted := List.sorted_insertionSort (· ≤ ·) (parsedIds opts entries)
    set sorted := (parsedIds opts entries).insertionSort (· ≤ ·) with hsortedDef
    set segs := sorted.map (fun i => openSegmentFile fsize (uint32OfInt i))
      with hsegsDef
    have hndSorted : sorted.Pairwise (· ≠ ·) :=
      (hperm.pairwise_iff (fun h => h.symm)).mpr hnd
    have hltSorted : sorted.Pairwise (fun a b : Int => uint32OfInt a < uint32OfInt b) := by
      rw [List.pairwise_iff_getElem] at hndSorted ⊢
      rw [List.Sorted, List.pairwise_iff_getElem] at hsorted
      intro i j hi hj hij
      have hmemi : sorted[i] ∈ parsedIds opts entries :=
        hperm.mem_iff.mp (List.getElem_mem hi)
      have hmemj : sorted[j] ∈ parsedIds opts entries :=
        hperm.mem_iff.mp (List.getElem_mem hj)
      exact uint32OfInt_lt (hrange _ hmemi).1
        (lt_of_le_of_ne (hsorted i j hi hj hij) (hndSorted i j hi hj hij))
        (hrange _ hmemj).2
    have hsegsLt : segs.Pairwise (fun a b : Segment => a.id < b.id) :=
      List.pairwise_map.mpr hltSorted
    have hsegsNe : segs ≠ [] := by
      intro hnil
      apply h3
      have : sorted = [] := by
        cases hsort : sorted with
        | nil => rfl
        | cons a r => rw [hsegsDef, hsort] at hnil; simp at hnil
      exact List.Perm.eq_nil ((this ▸ hperm).symm)
    have hlast := List.getLast?_eq_getLast_of_ne_nil hsegsNe
    rcases mem_foldl_olderInsert segs.dropLast [] t ht with h | h
    · simp at h
    · rw [hlast]
      simp only [Option.getD_some]
      have hsplit := List.dropLast_append_getLast hsegsNe
      rw [← hsplit, List.pairwise_append] at hsegsLt
      exact hsegsLt.2.2 t h _ (List.mem_singleton_self _)

/-- C4 counterexample: the claim quantifies over every state reachable from
`Open`.  The filenames `1.seg` and `01.seg` both parse to id 1, so `Open`
puts a segment with id 1 into the older map and makes another segment with
id 1 active: the active id is not strictly greater than every older id,
already in the state `Open` returns. -/
theorem segInv_counterexample : ∃ w, Reachable w ∧ ¬ walSegInv w := by
  refine ⟨⟨⟨1, 0, 0⟩, [⟨1, 0, 0⟩], ⟨1000, 0, ['.', 's', 'e', 'g'], false, 0⟩, 0, [], 0⟩,
    Reachable.openWal ⟨1000, 0, ['.', 's', 'e', 'g'], false, 0⟩ (fun _ => 0)
      [⟨['1', '.', 's', 'e', 'g'], false⟩, ⟨['0', '1', '.', 's', 'e', 'g'], false⟩]
      _ (by decide), ?_⟩
  intro hinv
  exact absurd (hinv ⟨1, 0, 0⟩ (by decide)) (by decide)

/-- C4 amended: in every WAL state reachable from a successful `Open` by
`Write`, `WriteAll`, `PendingWrites` and `OpenNewActiveSegment`, there is
exactly one active segment (structurally) and its id is strictly greater
than the id of every segment in the older-segments map — provided `Open`'s
parsed ids are pairwise distinct and lie in `[0, 2^32)`, and every step
starts from an active id below `2^32 - 1` so the rotation id `active.id+1`
cannot wrap around. -/
theorem reachableSafe_segInv (w : WAL) (h : ReachableSafe w) : walSegInv w := by
  induction h with
  | openWal opts fsize entries w hw hnd hrange => exact walSegInv_open hw hnd hrange
  | write w n hr hb ih => exact walSegInv_write ih hb
  | writeAll w hr hb ih => exact walSegInv_writeAll ih hb
  | pending w n hr ih => exact walSegInv_of_eq ih rfl rfl
  | newActive w hr hb ih => exact walSegInv_onas ih hb

/-- C4 witness: open an empty directory, write once, rotate once: the
invariant holds in the resulting concrete state. -/
theorem reachableSafe_segInv_witness :
    walSegInv ((((⟨⟨1, 0, 0⟩, [], ⟨1000, 0, ['.', 's', 'e', 'g'], false, 0⟩, 0, [], 0⟩ :
        WAL).Write 5).wal).OpenNewActiveSegment).1 := by
  have h0 : ReachableSafe (⟨⟨1, 0, 0⟩, [], ⟨1000, 0, ['.', 's', 'e', 'g'], false, 0⟩,
      0, [], 0⟩ : WAL) :=
    ReachableSafe.openWal ⟨1000, 0, ['.', 's', 'e', 'g'], false, 0⟩ (fun _ => 0) []
      _ (by decide) (by simp [parsedIds]) (by simp [parsedIds])
  exact reachableSafe_segInv _
    (ReachableSafe.newActive _ (ReachableSafe.write _ 5 h0 (by decide)) (by decide))

/-- Dropping at an updated index exposes the new element, then the
original tail. -/
theorem drop_set_cons {α : Type} (x : α) :
    ∀ (l : List α) (i : Nat), i < l.length →
      (l.set i x).drop i = x :: l.drop (i + 1) := by
  intro l
  induction l with
  | nil =>
    intro i h
    simp at h
  | cons a t ih =>
    intro i h
    cases i with
    | zero => rfl
    | succ j =>
      rw [List.set_cons_succ, List.drop_succ_cons, List.drop_succ_cons]
      exact ih j (by simpa using h)

/-- `fuelFor` splits off the current reader's share when the cursor is in
range. -/
theorem fuelFor_skip {r : ReaderM} (h : r.currentReader < r.segmentReaders.length) :
    r.SkipCurrentSegment.fuelFor +
      ((r.segmentReaders.get ⟨r.currentReader, h⟩).pending.length + 1) =
      r.fuelFor := by
  unfold ReaderM.fuelFor ReaderM.SkipCurrentSegment
  simp only
  rw [List.drop_eq_getElem_cons h]
  simp only [List.map_cons, List.sum_cons, List.get_eq_getElem]
  omega

/-- A successful `Next` keeps the reader list's length and ids, never moves
the cursor backwards, leaves it in range, and strictly decreases the
fuel. -/
theorem readerNextAux_some :
    ∀ (fuel : Nat) (r r' : ReaderM) (p : Nat × Nat),
      readerNextAux fuel r = (some p, r') →
      r'.segmentReaders.length = r.segmentReaders.length ∧
      (∀ j (hj : j < r'.segmentReaders.length) (hj' : j < r.segmentReaders.length),
        (r'.segmentReaders.get ⟨j, hj⟩).segId =
          (r.segmentReaders.get ⟨j, hj'⟩).segId) ∧
      r.currentReader ≤ r'.currentReader ∧
      r'.currentReader < r'.segmentReaders.length ∧
      r'.fuelFor < r.fuelFor := by
  intro fuel
  induction fuel with
  | zero =>
    intro r r' p h
    simp [readerNextAux] at h
  | succ f ih =>
    intro r r' p h
    rw [readerNextAux] at h
    by_cases hcur : r.currentReader < r.segmentReaders.length
    · rw [dif_pos hcur] at h
      simp only [] at h
      cases hp : (r.segmentReaders.get ⟨r.currentReader, hcur⟩).pending with
      | nil =>
        rw [hp] at h
        obtain ⟨h1, h2, h3, h4, h5⟩ := ih _ r' p h
        refine ⟨h1, h2, ?_, h4, ?_⟩
        · exact le_trans (Nat.le_succ _) h3
        · have := fuelFor_skip hcur
          rw [hp] at this
          simp only [List.length_nil, ReaderM.SkipCurrentSegment] at this
          omega
      | cons p0 rest =>
        rw [hp] at h
        simp only [Prod.mk.injEq, Option.some.injEq] at h
        obtain ⟨hp0, hr'⟩ := h
        subst hr'
        refine ⟨by simp, ?_, le_rfl, by simpa using hcur, ?_⟩
        · intro j hj hj'
          simp only [List.get_eq_getElem, List.getElem_set]
          by_cases hje : r.currentReader = j
          · subst hje
            simp
          · simp [hje]
        · unfold ReaderM.fuelFor
          simp only
          rw [drop_set_cons _ _ _ hcur, List.drop_eq_getElem_cons hcur]
          simp only [List.map_cons, List.sum_cons]
          have hp' : (r.segmentReaders[r.currentReader]).pending = p0 :: rest := by
            simpa using hp
          rw [hp']
          simp
    · rw [dif_neg hcur] at h
      simp at h

/-- `fuelFor` is always positive. -/
theorem fuelFor_pos (r : ReaderM) : 1 ≤ r.fuelFor := by
  unfold ReaderM.fuelFor
  omega

/-- Once every remaining segment reader's id is at least the target
segment id, the source's loop coincides with the claim's advance phase:
`Next()` until the cursor condition holds or EOF. -/
theorem advance_loop_eq (startPos : ChunkPosition) :
    ∀ (fuel : Nat) (r : ReaderM), r.fuelFor ≤ fuel →
      r.currentReader < r.segmentReaders.length →
      (∀ j (hj : j < r.segmentReaders.length), r.currentReader ≤ j →
        startPos.SegmentId ≤ (r.segmentReaders.get ⟨j, hj⟩).segId) →
      ∀ fuel2, r.fuelFor ≤ fuel2 →
        newReaderWithStartAux fuel startPos r =
          .ok (advanceToPosAux fuel2 startPos r) := by
  intro fuel
  induction fuel with
  | zero =>
    intro r hf
    exact absurd (le_trans (fuelFor_pos r) hf) (by omega)
  | succ f ih =>
    intro r hf hcur hids fuel2 hf2
    cases fuel2 with
    | zero => exact absurd (le_trans (fuelFor_pos r) hf2) (by omega)
    | succ g =>
      rw [newReaderWithStartAux, advanceToPosAux, dif_pos hcur, dif_pos hcur]
      have hns : ¬ (r.CurrentSegmentId hcur < startPos.SegmentId) :=
        not_lt.mpr (hids r.currentReader hcur le_rfl)
      rw [if_neg hns]
      by_cases hcond : startPos.BlockNumber ≤ (r.CurrentChunkPosition hcur).BlockNumber ∧
          startPos.ChunkOffset ≤ (r.CurrentChunkPosition hcur).ChunkOffset
      · rw [if_pos hcond, if_pos hcond]
      · rw [if_neg hcond, if_neg hcond]
        cases hnext : r.Next with
        | mk o r1 =>
          cases o with
          | none => simp only [hnext]
          | some p =>
            simp only [hnext]
            obtain ⟨hlen, hids', hle, hcur', hfuel⟩ :=
              readerNextAux_some _ r r1 p hnext
            refine ih r1 (by omega) hcur' ?_ g (by omega)
            intro j hj hjge
            rw [hids' j hj (hlen ▸ hj)]
            exact hids j (hlen ▸ hj) (le_trans hle hjge)

/-- The source's `NewReaderWithStart` loop equals the claim's two phases —
skip whole segments below the target id, then advance to the cursor
condition — whenever some remaining reader reaches the target id (so the
skip phase stays in range). -/
theorem start_skip_advance (startPos : ChunkPosition) :
    ∀ (fuel : Nat) (r : ReaderM), r.fuelFor ≤ fuel →
      (r.segmentReaders.map SegmentReaderM.segId).Sorted (· ≤ ·) →
      (∃ j, ∃ hj : j < r.segmentReaders.length, r.currentReader ≤ j ∧
        startPos.SegmentId ≤ (r.segmentReaders.get ⟨j, hj⟩).segId) →
      ∀ fuel2 fuel3, r.fuelFor ≤ fuel2 →
        (skipToSegmentAux fuel2 startPos r).fuelFor ≤ fuel3 →
        newReaderWithStartAux fuel startPos r =
          .ok (advanceToPosAux fuel3 startPos (skipToSegmentAux fuel2 startPos r)) := by
  intro fuel
  induction fuel with
  | zero =>
    intro r hf
    exact absurd (le_trans (fuelFor_pos r) hf) (by omega)
  | succ f ih =>
    intro r hf hsorted hex fuel2 fuel3 hf2 hf3
    obtain ⟨j, hj, hjge, hjid⟩ := hex
    have hcur : r.currentReader < r.segmentReaders.length := lt_of_le_of_lt hjge hj
    cases fuel2 with
    | zero => exact absurd (le_trans (fuelFor_pos r) hf2) (by omega)
    | succ g2 =>
      by_cases hlt : r.CurrentSegmentId hcur < startPos.SegmentId
      · have hskipstep : skipToSegmentAux (g2 + 1) startPos r =
            skipToSegmentAux g2 startPos r.SkipCurrentSegment := by
          rw [skipToSegmentAux, dif_pos hcur, if_pos hlt]
        rw [newReaderWithStartAux, dif_pos hcur, if_pos hlt, hskipstep]
        rw [hskipstep] at hf3
        have hjne : r.currentReader ≠ j := by
          intro heq
          subst heq
          rw [ReaderM.CurrentSegmentId] at hlt
          exact absurd hjid (not_le.mpr hlt)
        have hskiplt : r.SkipCurrentSegment.fuelFor < r.fuelFor := by
          have := fuelFor_skip hcur
          omega
        have hjge' : r.SkipCurrentSegment.currentReader ≤ j := by
          unfold ReaderM.SkipCurrentSegment
          simp only
          omega
        exact ih r.SkipCurrentSegment (by omega) hsorted
          ⟨j, hj, hjge', hjid⟩ g2 fuel3 (by omega) hf3
      · have hskipstop : skipToSegmentAux (g2 + 1) startPos r = r := by
          rw [skipToSegmentAux, dif_pos hcur, if_neg hlt]
        rw [hskipstop]
        rw [hskipstop] at hf3
        refine advance_loop_eq startPos (f + 1) r hf hcur ?_ fuel3 hf3
        intro i hi hige
        rw [ReaderM.CurrentSegmentId] at hlt
        have hmono : (r.segmentReaders.get ⟨r.currentReader, hcur⟩).segId ≤
            (r.segmentReaders.get ⟨i, hi⟩).segId := by
          rcases Nat.lt_or_ge r.currentReader i with hlt' | hge'
          · have hp := hsorted
            rw [List.Sorted, List.pairwise_iff_getElem] at hp
            have := hp r.currentReader i (by simpa using hcur) (by simpa using hi) hlt'
            simpa using this
          · have : r.currentReader = i := le_antisymm hige hge'
            subst this
            exact le_rfl
        omega

/-- C6: for every non-nil `startPos` and every reader as `NewReader()`
builds it (`currentReader = 0`, segment readers sorted by ascending id),
provided some segment reaches `startPos.SegmentId` (otherwise the loop
indexes out of range — see the separate out-of-range result),
`NewReaderWithStart`'s loop returns exactly the reader obtained by first
skipping whole segment readers while the current segment id is less than
`startPos.SegmentId`, and then calling `Next()` exactly until the cursor
satisfies `block_number ≥ startPos.block_number ∧ chunk_offset ≥
startPos.chunk_offset`, or EOF. -/
theorem newReaderWithStart_follows_description (r : ReaderM)
    (startPos : ChunkPosition)
    (hzero : r.currentReader = 0)
    (hsorted : (r.segmentReaders.map SegmentReaderM.segId).Sorted (· ≤ ·))
    (hex : ∃ sr ∈ r.segmentReaders, startPos.SegmentId ≤ sr.segId) :
    r.NewReaderWithStart startPos =
      .ok ((r.skipToSegment startPos).advanceToPos startPos) := by
  obtain ⟨sr, hmem, hid⟩ := hex
  obtain ⟨⟨j, hj⟩, hget⟩ := List.mem_iff_get.mp hmem
  unfold ReaderM.NewReaderWithStart ReaderM.skipToSegment ReaderM.advanceToPos
  exact start_skip_advance startPos r.fuelFor r le_rfl hsorted
    ⟨j, hj, by omega, by rw [hget]; exact hid⟩ r.fuelFor _ le_rfl le_rfl

/-- C6 witness: two segments with ids 1 and 2, starting at segment 2,
block 1, offset 2: the loop and the claim's two-phase description agree. -/
theorem newReaderWithStart_follows_description_witness :
    (let r : ReaderM := ⟨[⟨1, [(0, 0)], (0, 8)⟩, ⟨2, [(0, 0), (1, 4)], (1, 12)⟩], 0⟩
     let p : ChunkPosition := ⟨2, 1, 2, 0⟩
     r.NewReaderWithStart p = .ok ((r.skipToSegment p).advanceToPos p)) :=
  newReaderWithStart_follows_description _ _ rfl (by decide) (by decide)

/-- C10: when `startPos.SegmentId` is strictly greater than every existing
segment id, the skip loop of `NewReaderWithStart` walks past the last
segment reader and then evaluates `CurrentSegmentId()` with
`currentReader = len(segmentReaders)` — an out-of-range index, i.e. a Go
panic, not a returned reader or error.  Concretely: a WAL whose only
segment has id 1, and `startPos.SegmentId = 2`. -/
theorem newReaderWithStart_out_of_range :
    ReaderM.NewReaderWithStart ⟨[⟨1, [(0, 0)], (0, 7)⟩], 0⟩ ⟨2, 0, 0, 0⟩ =
      .panicked := by
  decide

end KuentraWal
